import Mathlib

/-!
Verification of the switch-upgrade playbooks (shallow embedding).

Device outputs and CLI strings are modelled as `List Char` (`Str`).
Python string primitives used by the scripts (`str.strip`, `str.split`,
`str.splitlines`, `str.lower`, the `in` substring test, `str.rfind(" ")`)
are embedded below; the `re.search(r'[a-fA-F0-9]{32}', ...)` call is
embedded as a left-to-right scan for the first 32-hex-digit window, which
is exactly the leftmost-match semantics of that fixed-width pattern.
External collaborators (the SSH/PyEZ transport, the XML extractor) are
parameters: a session is a function from a command to its response.
-/

abbrev Str := List Char

/-- Python `str.isspace` on the ASCII whitespace characters, the class
`str.strip()` removes. -/
def pyIsSpace (c : Char) : Bool :=
  c = ' ' || c = '\t' || c = '\n' || c = '\r' || c = '\x0b' || c = '\x0c'

/-- Python `str.lower()` (ASCII case folding, as used on status fields and
stderr text). -/
def lowerStr (s : Str) : Str :=
  s.map Char.toLower

/-- Python `str.strip()`: whitespace removed from both ends. -/
def pyStrip (s : Str) : Str :=
  ((s.dropWhile pyIsSpace).reverse.dropWhile pyIsSpace).reverse

/-- One character of the class `[a-fA-F0-9]` of the checksum regex. -/
def isHexPy (c : Char) : Bool :=
  ('0' ≤ c && c ≤ '9') || ('a' ≤ c && c ≤ 'f') || ('A' ≤ c && c ≤ 'F')

/-- The window of 32 characters of `s` starting at `i` exists and is all
hex digits: the checksum regex matches `s` at position `i`. -/
def windowHex (s : Str) (i : Nat) : Bool :=
  ((s.drop i).take 32).length == 32 && ((s.drop i).take 32).all isHexPy

/-- Embedding of `re.search(r'[a-fA-F0-9]{32}', output)` from
`os_only.py` line 90 and `pyez_os.py` line 74: the leftmost position with
a 32-hex-digit window wins, and the match is that window. -/
def extract32hex : Str → Option Str
  | [] => none
  | c :: cs =>
    if windowHex (c :: cs) 0 = true then some ((c :: cs).take 32)
    else extract32hex cs

/-- Embedding of `validate_firmware` (`pyez_os.py` lines 69-83), the same
logic inlined in `os_only.py` lines 88-102: extract a digest with the
32-hex regex and compare it with `!=` against the expected checksum. -/
def validate_firmware (output expected : Str) : Bool :=
  match extract32hex output with
  | some device_md5 => device_md5 == expected
  | none => false

/-- Modelled from the claim's words, for comparison with the code: the
output contains a contiguous run of 32 hex digits whose value equals the
expected checksum up to letter case. -/
def checksumSpecCI (output expected : Str) : Bool :=
  (List.range (output.length + 1)).any (fun i =>
    ((output.drop i).take 32).length == 32 &&
    ((output.drop i).take 32).all isHexPy &&
    lowerStr ((output.drop i).take 32) == lowerStr expected)

/-- Python `str.split()` with no separator: fields are maximal runs of
non-whitespace, runs of whitespace separate them, no empty fields. -/
def pySplitGo (cur : Str) : Str → List Str
  | [] => if cur.isEmpty then [] else [cur.reverse]
  | c :: cs =>
    if pyIsSpace c then
      if cur.isEmpty then pySplitGo [] cs else cur.reverse :: pySplitGo [] cs
    else pySplitGo (c :: cur) cs

/-- Python `line.split()` as used on each CLI output line. -/
def pySplit (s : Str) : List Str :=
  pySplitGo [] s

/-- Worker for `splitLines`, accumulating the current line reversed. -/
def splitLinesGo (cur : Str) : Str → List Str
  | [] => if cur.isEmpty then [] else [cur.reverse]
  | c :: cs =>
    if c = '\n' then cur.reverse :: splitLinesGo [] cs
    else splitLinesGo (c :: cur) cs

/-- Python `str.splitlines()` on newline-terminated CLI output: a trailing
newline adds no empty final line (the embedding takes the newline
character as the line terminator). -/
def splitLines (s : Str) : List Str :=
  splitLinesGo [] s

/-- One row of the typed interface table built by
`parse_interfaces_descriptions`. -/
structure InterfaceStatus where
  admin_up : Bool
  link_up : Bool
  is_uplink : Bool
  description : Str
deriving DecidableEq

/-- Python dict assignment `interfaces[interface] = {...}`: replace in
place when the key exists, append otherwise (insertion order kept). -/
def dictInsert (k : Str) (v : InterfaceStatus) :
    List (Str × InterfaceStatus) → List (Str × InterfaceStatus)
  | [] => [(k, v)]
  | (k', v') :: rest =>
    if k' = k then (k, v) :: rest else (k', v') :: dictInsert k v rest

/-- Loop body of `parse_interfaces_descriptions` in `precheck.py` lines
34-44: a line is used only when it splits into at least 4 fields; field 0
is the key, fields 1 and 2 are compared to `"up"` lowercased, field 3 is
the description matched against the uplink pattern. `pat` stands for
`re.search(regex_pattern, ·) is not None`, the external regex call. -/
def parseStep (pat : Str → Bool) (acc : List (Str × InterfaceStatus))
    (line : Str) : List (Str × InterfaceStatus) :=
  let parts := pySplit line
  if 4 ≤ parts.length then
    dictInsert (parts.getD 0 [])
      { admin_up := lowerStr (parts.getD 1 []) == "up".toList
        link_up := lowerStr (parts.getD 2 []) == "up".toList
        is_uplink := pat (parts.getD 3 [])
        description := parts.getD 3 [] } acc
  else acc

/-- Embedding of `parse_interfaces_descriptions` from `precheck.py` lines
30-45: skip the header line, fold the guarded loop body over the rest. -/
def parse_interfaces_descriptions (output : Str) (pat : Str → Bool) :
    List (Str × InterfaceStatus) :=
  ((splitLines output).drop 1).foldl (parseStep pat) []

/-- Loop body of the `os_full.py` lines 33-45 variant: `parts[0]` is read
with no length guard, so an empty split raises `IndexError`; fields 1 and
2 fall back to `""` when missing, and the description is `parts[-1]`. -/
def parseStepFull (pat : Str → Bool) (acc : List (Str × InterfaceStatus))
    (line : Str) : Except String (List (Str × InterfaceStatus)) :=
  let parts := pySplit line
  match parts with
  | [] => Except.error "IndexError: list index out of range"
  | p0 :: _ =>
    let adminS := if 1 < parts.length && !(parts.getD 1 []).isEmpty then
        lowerStr (parts.getD 1 []) else []
    let linkS := if 2 < parts.length && !(parts.getD 2 []).isEmpty then
        lowerStr (parts.getD 2 []) else []
    let descr := parts.getLastD []
    Except.ok (dictInsert p0
      { admin_up := adminS == "up".toList
        link_up := linkS == "up".toList
        is_uplink := pat descr
        description := descr } acc)

/-- Embedding of `parse_interfaces_descriptions` from `os_full.py` lines
29-46 (the same code is in `pyez_os.py` lines 30-47): the unguarded loop,
with the `IndexError` propagating out of the fold. -/
def parse_interfaces_descriptions_full (output : Str) (pat : Str → Bool) :
    Except String (List (Str × InterfaceStatus)) :=
  ((splitLines output).drop 1).foldlM (parseStepFull pat) []

/-- A data line that the guarded parser accepts: at least 4 fields. -/
def goodLine (line : Str) : Bool :=
  decide (4 ≤ (pySplit line).length)

/-- First whitespace-separated field of a line (the interface id). -/
def firstField (line : Str) : Str :=
  (pySplit line).getD 0 []

/-- The lines after the header, as the parsers see them. -/
def dataLines (output : Str) : List Str :=
  (splitLines output).drop 1

/-- Dict lookup `interfaces_status[intf]` over the insertion-ordered
entry list: the entry whose key matches. -/
def lookupStatus (sts : List (Str × InterfaceStatus)) (k : Str) :
    Option InterfaceStatus :=
  (sts.find? (fun p => p.1 == k)).map Prod.snd

/-- Embedding of `os_full.py` line 189: ids of the entries whose
description matched the uplink pattern. -/
def uplink_candidates (sts : List (Str × InterfaceStatus)) : List Str :=
  (sts.filter (fun p => p.2.is_uplink)).map Prod.fst

/-- Embedding of `os_full.py` line 190: candidates that are both
admin-up and link-up (the strict activity policy). -/
def active_uplinks (sts : List (Str × InterfaceStatus)) : List Str :=
  (uplink_candidates sts).filter (fun i =>
    match lookupStatus sts i with
    | some d => d.admin_up && d.link_up
    | none => false)

/-- Embedding of `os_full.py` line 192: active candidates that also
appear in the LLDP neighbor list. -/
def confirmed_uplinks (sts : List (Str × InterfaceStatus))
    (lldp : List Str) : List Str :=
  (active_uplinks sts).filter (fun i => lldp.contains i)

/-- Embedding of `compare_files` (`os_full.py` lines 101-113, identical
in `post_compare.py` and `pyez_os.py`): walk indices up to the longer
length, read a missing line as empty, and keep the differing pairs in
order. -/
def compare_files (pre post : List Str) : List (Str × Str) :=
  (List.range (max pre.length post.length)).filterMap (fun i =>
    let pre_line := pre.getD i []
    let post_line := post.getD i []
    if pre_line ≠ post_line then some (pre_line, post_line) else none)

/-- The 50-dash block separator `'-'*50` of the snapshot collectors. -/
def blockSep : String := "--------------------------------------------------"

/-- One labeled block of `checks` (`Junos_pyez_os.py` lines 69-85). The
session is a function `run` from a command description to the device's
response: `Except.error e` models the RPC raising with message `e`,
`Except.ok none` models an RPC that returned `None` (rendered as
`"No data available"`), and `Except.ok (some t)` models a reply whose
extracted text is `t` (the RPC call and `extract_text_from_xml` are the
external collaborators the collector consumes). -/
def checkBlock (run : String → Except String (Option String))
    (desc : String) : String :=
  match run desc with
  | Except.ok (some t) => "Command: " ++ desc ++ "\n" ++ t ++ "\n" ++ blockSep ++ "\n"
  | Except.ok none =>
    "Command: " ++ desc ++ "\n" ++ "No data available" ++ "\n" ++ blockSep ++ "\n"
  | Except.error e => "Error executing " ++ desc ++ ": " ++ e ++ "\n" ++ blockSep ++ "\n"

/-- The blocks of one collection run, one per command in order. -/
def checksBlocks (run : String → Except String (Option String))
    (cmds : List String) : List String :=
  cmds.map (checkBlock run)

/-- Embedding of `checks` (`Junos_pyez_os.py` lines 69-85): the snapshot
document is the concatenation of the per-command blocks, built by the
`check_output +=` loop; a raised command contributes its error block and
the loop continues. -/
def checks (run : String → Except String (Option String))
    (cmds : List String) : String :=
  String.join (checksBlocks run cmds)

/-- Step of `rfindSpace`: a hit further right wins; else the head counts
when it is a space. -/
def rfsCombine (c : Char) : Option Nat → Option Nat
  | some i => some (i + 1)
  | none => if c = ' ' then some 0 else none

/-- Python `s.rfind(" ")`: index of the last space, `none` for -1. -/
def rfindSpace : Str → Option Nat
  | [] => none
  | c :: cs => rfsCombine c (rfindSpace cs)

/-- The split position of one `wrap_text` iteration (`os_full.py` lines
120-122): the last space within the first `width` characters, or `width`
itself when there is none. -/
def splitIdx (text : Str) (width : Nat) : Nat :=
  (rfindSpace (text.take width)).getD width

/-- The `wrap_text` while-loop with an explicit iteration budget. Each
real iteration consumes one unit of fuel; `wrap_text` supplies enough
fuel that the budget is never exhausted when `width ≥ 1` (each iteration
strictly shortens the text, see `wrap_step_shrinks`). -/
def wrapTextGo (width : Nat) : Nat → Str → List Str
  | 0, text => [text]
  | fuel + 1, text =>
    if width < text.length then
      pyStrip (text.take (splitIdx text width)) ::
        wrapTextGo width fuel (pyStrip (text.drop (splitIdx text width)))
    else [text]

/-- Embedding of `wrap_text` (`os_full.py` lines 115-126, identical in
`post_compare.py` lines 51-62 and `pyez_os.py` lines 137-148). -/
def wrap_text (text : Str) (width : Nat) : List Str :=
  wrapTextGo width text.length text

/-- Python substring test `sub in s`. -/
def containsSub (sub : Str) : Str → Bool
  | [] => sub.isEmpty
  | c :: cs => sub.isPrefixOf (c :: cs) || containsSub sub cs

/-- One observable device interaction of the staging/upgrade loop: a
command executed over the session, or an SCP transfer of the firmware. -/
inductive StageEvent where
  | exec (cmd : Str)
  | transfer (fw : Str)
deriving DecidableEq

/-- The `file list /var/tmp/{firmware}` existence probe. -/
def fileListCmd (fw : Str) : Str :=
  "file list /var/tmp/".toList ++ fw

/-- The `file checksum md5 /var/tmp/{firmware}` verification command. -/
def checksumCmd (fw : Str) : Str :=
  "file checksum md5 /var/tmp/".toList ++ fw

/-- The `request system software add /var/tmp/{firmware} no-validate`
install command. -/
def installCmd (fw : Str) : Str :=
  "request system software add /var/tmp/".toList ++ fw ++ " no-validate".toList

/-- The `request system reboot` command. -/
def rebootCmd : Str :=
  "request system reboot".toList

/-- Device-side responses consumed by one per-firmware iteration: the
stdout of the existence probe, whether the SCP copy succeeds, the stdout
of the checksum command and the stderr of the install command. -/
structure DeviceResponses where
  fileListOut : Str
  copyOk : Bool
  checksumOut : Str
  installErr : Str

/-- The `"No such file"` marker searched in the existence probe output. -/
def noSuchFileMark : Str := "No such file".toList

/-- The `"error"` marker searched in the lowercased install stderr. -/
def errorMark : Str := "error".toList

/-- Verify-then-install phase of the `os_only.py` loop (lines 88-113):
run the checksum command, extract a digest, abort on a missing or
mismatched digest, otherwise install (aborting when the install stderr
mentions an error, lowercased) and fire the reboot. The second component
is false exactly on the early `return` paths. -/
def stageVerifyPhase (fw expected : Str) (d : DeviceResponses)
    (evs : List StageEvent) : List StageEvent × Bool :=
  match extract32hex d.checksumOut with
  | some device_md5 =>
    if device_md5 ≠ expected then
      (evs ++ [StageEvent.exec (checksumCmd fw)], false)
    else
      if containsSub errorMark (lowerStr d.installErr) then
        (evs ++ [StageEvent.exec (checksumCmd fw),
          StageEvent.exec (installCmd fw)], false)
      else
        (evs ++ [StageEvent.exec (checksumCmd fw),
          StageEvent.exec (installCmd fw), StageEvent.exec rebootCmd], true)
  | none => (evs ++ [StageEvent.exec (checksumCmd fw)], false)

/-- Embedding of one iteration of the `os_only.py` staging loop (lines
77-113): probe existence, transfer only when the probe output contains
`"No such file"` (aborting when the copy fails), then always verify the
checksum before installing. -/
def stage_and_upgrade (fw expected : Str) (d : DeviceResponses) :
    List StageEvent × Bool :=
  if containsSub noSuchFileMark d.fileListOut then
    if d.copyOk then
      stageVerifyPhase fw expected d
        [StageEvent.exec (fileListCmd fw), StageEvent.transfer fw]
    else ([StageEvent.exec (fileListCmd fw), StageEvent.transfer fw], false)
  else
    stageVerifyPhase fw expected d [StageEvent.exec (fileListCmd fw)]

/-- Embedding of one iteration of the `os_full.py` staging loop (lines
229-247): probe existence, transfer when absent (a copy failure is only
printed, never checked), then install directly — no checksum command is
ever issued in this variant. -/
def stage_and_upgrade_full (fw : Str) (d : DeviceResponses) :
    List StageEvent × Bool :=
  let pre := if containsSub noSuchFileMark d.fileListOut then
      [StageEvent.exec (fileListCmd fw), StageEvent.transfer fw]
    else [StageEvent.exec (fileListCmd fw)]
  if containsSub errorMark (lowerStr d.installErr) then
    (pre ++ [StageEvent.exec (installCmd fw)], false)
  else
    (pre ++ [StageEvent.exec (installCmd fw), StageEvent.exec rebootCmd], true)

/-- One observable step of the reachability wait loop: a `time.sleep` of
some seconds, or the ping probe numbered by how many probes ran before. -/
inductive WaitEvent where
  | sleep (secs : Nat)
  | probe (idx : Nat)
deriving DecidableEq

/-- The polling loop `while not is_device_pingable(host): sleep(poll)` of
`os_full.py` lines 251-253 (`pyez_os.py` lines 252-254), with the probe
results given as a sequence `probe : Nat → Bool` indexed by attempt. The
loop itself is unbounded; `fuel` is only the observation budget of the
embedding: when it runs out the loop is still running, hence the `false`
flag — the loop has no failing exit of its own. -/
def waitGo (probe : Nat → Bool) (poll : Nat) : Nat → Nat → List WaitEvent × Bool
  | _, 0 => ([], false)
  | i, fuel + 1 =>
    if probe i then ([WaitEvent.probe i], true)
    else (WaitEvent.probe i :: WaitEvent.sleep poll ::
      (waitGo probe poll (i + 1) fuel).1, (waitGo probe poll (i + 1) fuel).2)

/-- Embedding of the wait phase (`os_full.py` lines 249-253): one initial
`time.sleep(initialDelay)`, then the polling loop. -/
def waitUntilReachable (probe : Nat → Bool) (initialDelay poll fuel : Nat) :
    List WaitEvent × Bool :=
  (WaitEvent.sleep initialDelay :: (waitGo probe poll 0 fuel).1,
    (waitGo probe poll 0 fuel).2)

theorem windowHex_cons_succ (c : Char) (cs : Str) (i : Nat) :
    windowHex (c :: cs) (i + 1) = windowHex cs i := rfl

theorem extract32hex_eq_some_iff (s w : Str) :
    extract32hex s = some w ↔
      ∃ i, windowHex s i = true ∧ (s.drop i).take 32 = w ∧
        ∀ j, j < i → windowHex s j = false := by
  induction s with
  | nil =>
    constructor
    · intro h; simp [extract32hex] at h
    · rintro ⟨i, hi, -, -⟩; simp [windowHex] at hi
  | cons c cs ih =>
    by_cases h0 : windowHex (c :: cs) 0 = true
    · constructor
      · intro h
        rw [extract32hex, if_pos h0] at h
        exact ⟨0, h0, by simpa using h, by omega⟩
      · rintro ⟨i, hi, hw, hmin⟩
        rcases Nat.eq_zero_or_pos i with rfl | hpos
        · rw [extract32hex, if_pos h0]
          simpa using hw
        · exact absurd h0 (by simp [hmin 0 hpos])
    · have h0' : windowHex (c :: cs) 0 = false := by
        simpa using h0
      constructor
      · intro h
        rw [extract32hex, if_neg h0] at h
        rcases ih.mp h with ⟨i, hi, hw, hmin⟩
        refine ⟨i + 1, ?_, ?_, ?_⟩
        · simpa [windowHex_cons_succ] using hi
        · simpa using hw
        · intro j hj
          cases j with
          | zero => exact h0'
          | succ j' =>
            rw [windowHex_cons_succ]
            exact hmin j' (by omega)
      · rintro ⟨i, hi, hw, hmin⟩
        rw [extract32hex, if_neg h0]
        cases i with
        | zero => exact absurd hi (by simp [h0'])
        | succ i' =>
          refine ih.mpr ⟨i', ?_, ?_, ?_⟩
          · simpa [windowHex_cons_succ] using hi
          · simpa using hw
          · intro j hj
            have := hmin (j + 1) (by omega)
            simpa [windowHex_cons_succ] using this

theorem validate_firmware_eq_true_iff (output expected : Str) :
    validate_firmware output expected = true ↔
      extract32hex output = some expected := by
  unfold validate_firmware
  cases hx : extract32hex output with
  | none => simp
  | some d => simp

/-- C1, counterexample: the claim's case-insensitive reading is false on
the code. With expected checksum `"AAA…A"` (32 uppercase) and device
output `"aaa…a"` (32 lowercase), the output contains a 32-hex-digit run
equal to the expected checksum up to letter case, yet `validate_firmware`
reports failure: the comparison in the source is the exact `!=`. -/
theorem checksum_case_insensitive_cex :
    checksumSpecCI (List.replicate 32 'a') (List.replicate 32 'A') = true ∧
    validate_firmware (List.replicate 32 'a') (List.replicate 32 'A') = false := by
  decide

/-- C1, amended: checksum verification extracts the leftmost contiguous
32-hex-digit run of the device output (the extraction accepts either
letter case) and succeeds exactly when that run equals the expected
checksum character-for-character, case-sensitively; any output with no
32-hex-digit run is rejected. -/
theorem validate_firmware_leftmost_run (output expected : Str) :
    validate_firmware output expected = true ↔
      ∃ i, windowHex output i = true ∧ (output.drop i).take 32 = expected ∧
        ∀ j, j < i → windowHex output j = false := by
  rw [validate_firmware_eq_true_iff]
  exact extract32hex_eq_some_iff output expected

theorem dictInsert_of_not_mem (k : Str) (v : InterfaceStatus)
    (acc : List (Str × InterfaceStatus)) (h : k ∉ acc.map Prod.fst) :
    dictInsert k v acc = acc ++ [(k, v)] := by
  induction acc with
  | nil => rfl
  | cons p rest ih =>
    cases p with
    | mk k' v' =>
      simp only [List.map_cons, List.mem_cons, not_or] at h
      rw [dictInsert, if_neg (fun hh => h.1 hh.symm)]
      rw [ih h.2]
      rfl

theorem parseStep_keys_good (pat : Str → Bool)
    (acc : List (Str × InterfaceStatus)) (line : Str)
    (hg : goodLine line = true) (hnotin : firstField line ∉ acc.map Prod.fst) :
    (parseStep pat acc line).map Prod.fst =
      acc.map Prod.fst ++ [firstField line] := by
  have hlen : 4 ≤ (pySplit line).length := of_decide_eq_true hg
  unfold parseStep
  rw [if_pos hlen]
  rw [dictInsert_of_not_mem ((pySplit line).getD 0 []) _ acc hnotin]
  simp [firstField]

theorem parseStep_keys_bad (pat : Str → Bool)
    (acc : List (Str × InterfaceStatus)) (line : Str)
    (hg : goodLine line = false) :
    parseStep pat acc line = acc := by
  have hlen : ¬ 4 ≤ (pySplit line).length := of_decide_eq_false hg
  unfold parseStep
  rw [if_neg hlen]

theorem parse_foldl_keys (pat : Str → Bool) (lines : List Str)
    (acc : List (Str × InterfaceStatus))
    (hdisj : ∀ k ∈ acc.map Prod.fst, k ∉ (lines.filter goodLine).map firstField)
    (hnd : ((lines.filter goodLine).map firstField).Nodup) :
    (lines.foldl (parseStep pat) acc).map Prod.fst =
      acc.map Prod.fst ++ (lines.filter goodLine).map firstField := by
  induction lines generalizing acc with
  | nil => simp
  | cons l ls ih =>
    by_cases hg : goodLine l = true
    · rw [List.filter_cons_of_pos hg] at hdisj hnd ⊢
      rw [List.map_cons] at hdisj hnd ⊢
      have hhead : firstField l ∉ (ls.filter goodLine).map firstField :=
        (List.nodup_cons.mp hnd).1
      have hnd' := (List.nodup_cons.mp hnd).2
      have hnotin : firstField l ∉ acc.map Prod.fst := fun hmem =>
        hdisj _ hmem (List.mem_cons_self _ _)
      rw [List.foldl_cons]
      have hkeys := parseStep_keys_good pat acc l hg hnotin
      have hdisj' : ∀ k ∈ (parseStep pat acc l).map Prod.fst,
          k ∉ (ls.filter goodLine).map firstField := by
        intro k hk
        rw [hkeys, List.mem_append] at hk
        rcases hk with hk | hk
        · exact fun hmem => hdisj _ hk (List.mem_cons_of_mem _ hmem)
        · simp only [List.mem_singleton] at hk
          subst hk
          exact hhead
      rw [ih (parseStep pat acc l) hdisj' hnd', hkeys]
      simp
    · have hg' : goodLine l = false := by
        simpa using hg
      rw [List.filter_cons_of_neg (by simp [hg'])] at hdisj hnd ⊢
      rw [List.foldl_cons, parseStep_keys_bad pat acc l hg']
      exact ih acc hdisj hnd

/-- C2, counterexample: the claim's "never raises an error" is false for
the `os_full.py` variant. On the two-line input `"H\n\n"` (a header line
and one empty data line) the unguarded `parts[0]` raises `IndexError`:
the embedded fold returns the error instead of a mapping. -/
theorem parse_full_raises_cex :
    parse_interfaces_descriptions_full "H\n\n".toList (fun _ => false) =
      Except.error "IndexError: list index out of range" := by
  rfl

/-- C2, amended: the guarded `precheck.py` parser satisfies the claim:
it is total (never raises), empty input yields an empty mapping, and —
whenever the interface identifiers of the well-formed data lines are
pairwise distinct — the mapping has exactly one entry, in order, per data
line with at least 4 whitespace-separated fields, with zero entries
contributed by malformed lines. The `os_full.py` variant instead raises
`IndexError` on a data line with no fields and does not skip lines of
1 to 3 fields. -/
theorem parse_precheck_entries (output : Str) (pat : Str → Bool)
    (hnd : (((dataLines output).filter goodLine).map firstField).Nodup) :
    (parse_interfaces_descriptions output pat).map Prod.fst =
      ((dataLines output).filter goodLine).map firstField ∧
    parse_interfaces_descriptions [] pat = [] := by
  constructor
  · have h := parse_foldl_keys pat (dataLines output) [] (by simp) hnd
    simpa [parse_interfaces_descriptions, dataLines] using h
  · rfl

/-- Witness for the amended C2 at a concrete input: a header, one
well-formed data line and one malformed line. -/
theorem parse_precheck_entries_witness :
    (parse_interfaces_descriptions "H x\nge-0 up up corp-cr1\nbad line\n".toList
        (fun _ => false)).map Prod.fst =
      ((dataLines "H x\nge-0 up up corp-cr1\nbad line\n".toList).filter
        goodLine).map firstField ∧
    parse_interfaces_descriptions [] (fun _ => false) = [] :=
  parse_precheck_entries "H x\nge-0 up up corp-cr1\nbad line\n".toList
    (fun _ => false) (by decide)

/-- C6: for every interface-status mapping and every neighbor list the
assessment chain holds: confirmed is a sublist of active, active of the
candidates, the candidates of the full id list, so the four counts are
descending, and on the empty mapping all four counts are zero. -/
theorem assess_chain (sts : List (Str × InterfaceStatus)) (lldp : List Str) :
    List.Sublist (confirmed_uplinks sts lldp) (active_uplinks sts) ∧
    List.Sublist (active_uplinks sts) (uplink_candidates sts) ∧
    List.Sublist (uplink_candidates sts) (sts.map Prod.fst) ∧
    (confirmed_uplinks sts lldp).length ≤ (active_uplinks sts).length ∧
    (active_uplinks sts).length ≤ (uplink_candidates sts).length ∧
    (uplink_candidates sts).length ≤ sts.length ∧
    (confirmed_uplinks ([] : List (Str × InterfaceStatus)) lldp).length = 0 ∧
    (active_uplinks ([] : List (Str × InterfaceStatus))).length = 0 ∧
    (uplink_candidates ([] : List (Str × InterfaceStatus))).length = 0 := by
  have h1 : List.Sublist (confirmed_uplinks sts lldp) (active_uplinks sts) :=
    List.filter_sublist _
  have h2 : List.Sublist (active_uplinks sts) (uplink_candidates sts) :=
    List.filter_sublist _
  have h3 : List.Sublist (uplink_candidates sts) (sts.map Prod.fst) :=
    (List.filter_sublist sts).map Prod.fst
  refine ⟨h1, h2, h3, h1.length_le, h2.length_le, ?_, rfl, rfl, rfl⟩
  have := h3.length_le
  simpa using this

/-- C8: the positional diff is reflexive: diffing any snapshot against
itself yields the empty change sequence. -/
theorem compare_files_refl (snapshot : List Str) :
    compare_files snapshot snapshot = [] := by
  unfold compare_files
  rw [List.filterMap_eq_nil_iff]
  intro i _
  simp

/-- C4: the collector never aborts a collection because one command
fails: for every command list and every session in which the command at
position `i` errors, the snapshot still has exactly one block per
command, and block `i` records the error text in place of the output. -/
theorem checks_block_per_command (run : String → Except String (Option String))
    (cmds : List String) (i : Nat) (h : i < cmds.length) (e : String)
    (he : run (cmds.get ⟨i, h⟩) = Except.error e) :
    (checksBlocks run cmds).length = cmds.length ∧
    (checksBlocks run cmds).get ⟨i, by simpa [checksBlocks] using h⟩ =
      "Error executing " ++ cmds.get ⟨i, h⟩ ++ ": " ++ e ++ "\n" ++ blockSep ++ "\n" := by
  constructor
  · simp [checksBlocks]
  · simp only [checksBlocks, List.get_eq_getElem, List.getElem_map]
    rw [checkBlock]
    simp only [List.get_eq_getElem] at he
    rw [he]

/-- Witness for C4 at a concrete session: of two commands the first one
raises and its block carries the error text, the second succeeds. -/
theorem checks_block_per_command_witness :
    (checksBlocks
        (fun c => if c = "a" then Except.error "boom" else Except.ok (some "ok"))
        ["a", "b"]).length = (["a", "b"] : List String).length ∧
    (checksBlocks
        (fun c => if c = "a" then Except.error "boom" else Except.ok (some "ok"))
        ["a", "b"]).get ⟨0, by simp [checksBlocks]⟩ =
      "Error executing " ++ (["a", "b"] : List String).get ⟨0, by simp⟩ ++ ": " ++
        "boom" ++ "\n" ++ blockSep ++ "\n" :=
  checks_block_per_command
    (fun c => if c = "a" then Except.error "boom" else Except.ok (some "ok"))
    ["a", "b"] 0 (by simp) "boom" (by rfl)

theorem pyStrip_sublist (s : Str) : List.Sublist (pyStrip s) s := by
  have h1 : List.Sublist ((s.dropWhile pyIsSpace).reverse.dropWhile pyIsSpace)
      (s.dropWhile pyIsSpace).reverse := List.dropWhile_sublist _
  have h2 := h1.reverse
  rw [List.reverse_reverse] at h2
  exact h2.trans (List.dropWhile_sublist _)

theorem pyStrip_length_le (s : Str) : (pyStrip s).length ≤ s.length :=
  (pyStrip_sublist s).length_le

theorem filter_dropWhile_not (p : Char → Bool) (l : Str) :
    (l.dropWhile p).filter (fun c => !p c) = l.filter (fun c => !p c) := by
  induction l with
  | nil => rfl
  | cons c cs ih =>
    by_cases hc : p c = true
    · rw [List.dropWhile_cons_of_pos hc, ih,
        List.filter_cons_of_neg (by simp [hc])]
    · rw [List.dropWhile_cons_of_neg hc]

theorem pyStrip_filter (s : Str) :
    (pyStrip s).filter (fun c => !pyIsSpace c) =
      s.filter (fun c => !pyIsSpace c) := by
  unfold pyStrip
  rw [List.filter_reverse, filter_dropWhile_not, List.filter_reverse,
    List.reverse_reverse, filter_dropWhile_not]

theorem wrapGo_flatten (width fuel : Nat) (text : Str) :
    List.Sublist (wrapTextGo width fuel text).flatten text ∧
    (wrapTextGo width fuel text).flatten.filter (fun c => !pyIsSpace c) =
      text.filter (fun c => !pyIsSpace c) := by
  induction fuel generalizing text with
  | zero => simp [wrapTextGo]
  | succ fuel ih =>
    rw [wrapTextGo]
    by_cases h : width < text.length
    · rw [if_pos h]
      obtain ⟨ihs, ihf⟩ := ih (pyStrip (text.drop (splitIdx text width)))
      constructor
      · rw [List.flatten_cons]
        have s1 : List.Sublist (pyStrip (text.take (splitIdx text width)))
            (text.take (splitIdx text width)) := pyStrip_sublist _
        have s2 := ihs.trans (pyStrip_sublist _)
        have h3 := List.Sublist.append s1 s2
        rwa [List.take_append_drop] at h3
      · rw [List.flatten_cons, List.filter_append, pyStrip_filter, ihf,
          pyStrip_filter, ← List.filter_append, List.take_append_drop]
    · rw [if_neg h]
      simp

theorem rfindSpace_lt_length (l : Str) (i : Nat) (h : rfindSpace l = some i) :
    i < l.length := by
  induction l generalizing i with
  | nil => simp [rfindSpace] at h
  | cons c cs ih =>
    rw [rfindSpace] at h
    cases hr : rfindSpace cs with
    | some j =>
      rw [hr] at h
      simp only [rfsCombine, Option.some.injEq] at h
      have := ih j hr
      simp only [List.length_cons]
      omega
    | none =>
      rw [hr] at h
      by_cases hc : c = ' '
      · simp only [rfsCombine, if_pos hc, Option.some.injEq] at h
        simp only [List.length_cons]
        omega
      · simp [rfsCombine, hc] at h

theorem rfindSpace_zero (l : Str) (h : rfindSpace l = some 0) :
    ∃ cs, l = ' ' :: cs := by
  cases l with
  | nil => simp [rfindSpace] at h
  | cons c cs =>
    rw [rfindSpace] at h
    cases hr : rfindSpace cs with
    | some j =>
      rw [hr] at h
      simp [rfsCombine] at h
    | none =>
      rw [hr] at h
      by_cases hc : c = ' '
      · exact ⟨cs, by rw [hc]⟩
      · simp [rfsCombine, hc] at h

theorem splitIdx_le (text : Str) (width : Nat) : splitIdx text width ≤ width := by
  unfold splitIdx
  cases hr : rfindSpace (text.take width) with
  | none => simp
  | some i =>
    have := rfindSpace_lt_length _ i hr
    rw [List.length_take] at this
    simp only [Option.getD_some]
    omega

theorem pyStrip_length_le_dropWhile (s : Str) :
    (pyStrip s).length ≤ (s.dropWhile pyIsSpace).length := by
  unfold pyStrip
  rw [List.length_reverse]
  have h1 : ((s.dropWhile pyIsSpace).reverse.dropWhile pyIsSpace).length ≤
      (s.dropWhile pyIsSpace).reverse.length :=
    (List.dropWhile_sublist pyIsSpace).length_le
  rw [List.length_reverse] at h1
  exact h1

theorem wrap_step_shrinks (text : Str) (width : Nat) (hw : 1 ≤ width)
    (hlen : width < text.length) :
    (pyStrip (text.drop (splitIdx text width))).length < text.length := by
  unfold splitIdx
  cases hr : rfindSpace (text.take width) with
  | none =>
    simp only [Option.getD_none]
    have h1 := pyStrip_length_le (text.drop width)
    rw [List.length_drop] at h1
    omega
  | some i =>
    simp only [Option.getD_some]
    rcases Nat.eq_zero_or_pos i with rfl | hpos
    · obtain ⟨cs, hcons⟩ := rfindSpace_zero _ hr
      have htext : ∃ rest, text = ' ' :: rest := by
        cases text with
        | nil => simp at hlen
        | cons t0 trest =>
          cases width with
          | zero => omega
          | succ w =>
            rw [List.take_succ_cons] at hcons
            injection hcons with h1 h2
            exact ⟨trest, by rw [h1]⟩
      obtain ⟨rest, hrest⟩ := htext
      have h1 := pyStrip_length_le_dropWhile (text.drop 0)
      rw [List.drop_zero] at h1
      rw [hrest] at h1 ⊢
      rw [List.dropWhile_cons_of_pos (by decide)] at h1
      have h2 : (rest.dropWhile pyIsSpace).length ≤ rest.length :=
        (List.dropWhile_sublist pyIsSpace).length_le
      simp only [List.drop_zero, List.length_cons]
      omega
    · have h1 := pyStrip_length_le (text.drop i)
      rw [List.length_drop] at h1
      omega

theorem wrapGo_fragment_le (width fuel : Nat) (text : Str) (hw : 1 ≤ width)
    (hfuel : text.length ≤ fuel) :
    ∀ l ∈ wrapTextGo width fuel text, l.length ≤ width := by
  induction fuel generalizing text with
  | zero =>
    intro l hl
    rw [wrapTextGo] at hl
    simp only [List.mem_singleton] at hl
    subst hl
    omega
  | succ fuel ih =>
    intro l hl
    rw [wrapTextGo] at hl
    by_cases h : width < text.length
    · rw [if_pos h] at hl
      rcases List.mem_cons.mp hl with rfl | hl
      · have h1 := pyStrip_length_le (text.take (splitIdx text width))
        have h2 : (text.take (splitIdx text width)).length ≤ splitIdx text width := by
          rw [List.length_take]
          omega
        have h3 := splitIdx_le text width
        omega
      · have hs := wrap_step_shrinks text width hw h
        exact ih (pyStrip (text.drop (splitIdx text width))) (by omega) l hl
    · rw [if_neg h] at hl
      simp only [List.mem_singleton] at hl
      subst hl
      omega

/-- C3, counterexample: the round trip loses whitespace at wrap points.
For the input `"ab cd"` and width 3 the fragments are `"ab"` and `"cd"`:
their concatenation is `"abcd"`, not the original string, and no padding
was involved — the interior space is stripped by `wrap_text` itself. -/
theorem wrap_roundtrip_cex :
    wrap_text "ab cd".toList 3 = ["ab".toList, "cd".toList] ∧
    (wrap_text "ab cd".toList 3).flatten ≠ "ab cd".toList := by
  decide

/-- C3, amended: for every string and every width ≥ 1, concatenating the
fragments produced by `wrap_text` reproduces the original string with
some whitespace removed: the concatenation is a subsequence of the
original, and it preserves the original's non-whitespace characters
exactly (only whitespace at the wrap boundaries is lost). -/
theorem wrap_join_preserves_nonspace (text : Str) (width : Nat)
    (hw : 1 ≤ width) :
    List.Sublist (wrap_text text width).flatten text ∧
    (wrap_text text width).flatten.filter (fun c => !pyIsSpace c) =
      text.filter (fun c => !pyIsSpace c) := by
  unfold wrap_text
  exact wrapGo_flatten width text.length text

/-- Witness for the amended C3 at the concrete input `"ab cd"`, width 3. -/
theorem wrap_join_preserves_nonspace_witness :
    List.Sublist (wrap_text "ab cd".toList 3).flatten "ab cd".toList ∧
    (wrap_text "ab cd".toList 3).flatten.filter (fun c => !pyIsSpace c) =
      "ab cd".toList.filter (fun c => !pyIsSpace c) :=
  wrap_join_preserves_nonspace "ab cd".toList 3 (by decide)

/-- C10: for every string and width ≥ 1, the `wrap_text` loop terminates
— each iteration strictly shrinks the remaining text (a split index of 0
happens only when the text starts with a space, which the strip then
removes), stated as the strict length decrease of one loop step — and
every fragment in the returned list has length at most the width. -/
theorem wrap_text_fragments_bounded (text : Str) (width : Nat)
    (hw : 1 ≤ width) :
    (∀ l ∈ wrap_text text width, l.length ≤ width) ∧
    (width < text.length →
      (pyStrip (text.drop (splitIdx text width))).length < text.length) := by
  constructor
  · exact wrapGo_fragment_le width text.length text hw (Nat.le_refl _)
  · intro h
    exact wrap_step_shrinks text width hw h

/-- Witness for C10 at the concrete input `"this is a test"`, width 4. -/
theorem wrap_text_fragments_bounded_witness :
    (∀ l ∈ wrap_text "this is a test".toList 4, l.length ≤ 4) ∧
    (4 < "this is a test".toList.length →
      (pyStrip ("this is a test".toList.drop
        (splitIdx "this is a test".toList 4))).length <
        "this is a test".toList.length) :=
  wrap_text_fragments_bounded "this is a test".toList 4 (by decide)

theorem installCmd_ne_fileListCmd (fw g : Str) : installCmd fw ≠ fileListCmd g := by
  intro h
  have h0 : ('r' : Char) = 'f' := congrArg (fun l => l.getD 0 ' ') h
  exact absurd h0 (by decide)

theorem installCmd_ne_checksumCmd (fw g : Str) : installCmd fw ≠ checksumCmd g := by
  intro h
  have h0 : ('r' : Char) = 'f' := congrArg (fun l => l.getD 0 ' ') h
  exact absurd h0 (by decide)

/-- C7: on a checksum mismatch the session aborts before any install
action: whenever the digest extracted from the checksum output differs
from the expected checksum, the install command is never executed and the
iteration ends in failure (the early `return` of `os_only.py` lines
93-96; `pyez_os.py` lines 241-244 abort identically before
`upgrade_firmware`). -/
theorem mismatch_aborts_before_install (fw expected dm : Str)
    (d : DeviceResponses) (hex : extract32hex d.checksumOut = some dm)
    (hne : dm ≠ expected) :
    StageEvent.exec (installCmd fw) ∉ (stage_and_upgrade fw expected d).1 ∧
    (stage_and_upgrade fw expected d).2 = false := by
  unfold stage_and_upgrade stageVerifyPhase
  rw [hex]
  by_cases hf : containsSub noSuchFileMark d.fileListOut = true
  · rw [if_pos hf]
    by_cases hc : d.copyOk = true
    · rw [if_pos hc]
      simp [hne, installCmd_ne_fileListCmd, installCmd_ne_checksumCmd]
    · rw [if_neg hc]
      simp [installCmd_ne_fileListCmd]
  · rw [if_neg hf]
    simp [hne, installCmd_ne_fileListCmd, installCmd_ne_checksumCmd]

/-- Witness for C7: a device whose checksum output carries a digest of 32
letters `b` against an expected checksum of 32 letters `a`. -/
theorem mismatch_aborts_before_install_witness :
    StageEvent.exec (installCmd "img".toList) ∉
      (stage_and_upgrade "img".toList (List.replicate 32 'a')
        { fileListOut := "found".toList, copyOk := true,
          checksumOut := List.replicate 32 'b', installErr := [] }).1 ∧
    (stage_and_upgrade "img".toList (List.replicate 32 'a')
        { fileListOut := "found".toList, copyOk := true,
          checksumOut := List.replicate 32 'b', installErr := [] }).2 = false :=
  mismatch_aborts_before_install "img".toList (List.replicate 32 'a')
    (List.replicate 32 'b')
    { fileListOut := "found".toList, copyOk := true,
      checksumOut := List.replicate 32 'b', installErr := [] }
    (by decide) (by decide)

/-- C5, amended: in the `os_only.py` workflow staging is idempotent and
never trusts a pre-staged file: when the existence probe finds the
artifact (its output has no `"No such file"`), no transfer occurs, the
checksum command still runs, and the install command is reached only if
the extracted digest equals the expected checksum. The `os_full.py`
workflow skips the re-copy identically but performs no checksum
verification at all before install (see the counterexample). -/
theorem stage_present_no_transfer_verifies (fw expected : Str)
    (d : DeviceResponses)
    (hpresent : containsSub noSuchFileMark d.fileListOut = false) :
    (∀ g, StageEvent.transfer g ∉ (stage_and_upgrade fw expected d).1) ∧
    StageEvent.exec (checksumCmd fw) ∈ (stage_and_upgrade fw expected d).1 ∧
    (StageEvent.exec (installCmd fw) ∈ (stage_and_upgrade fw expected d).1 →
      extract32hex d.checksumOut = some expected) := by
  unfold stage_and_upgrade stageVerifyPhase
  rw [if_neg (by simp [hpresent])]
  cases hex : extract32hex d.checksumOut with
  | none =>
    refine ⟨fun g => by simp, by simp, fun hmem => ?_⟩
    simp [installCmd_ne_fileListCmd, installCmd_ne_checksumCmd] at hmem
  | some dm =>
    by_cases hne : dm = expected
    · subst hne
      by_cases herr : containsSub errorMark (lowerStr d.installErr) = true
      · exact ⟨fun g => by simp [herr], by simp [herr], fun _ => rfl⟩
      · have herr' : containsSub errorMark (lowerStr d.installErr) = false := by
          simpa using herr
        exact ⟨fun g => by simp [herr'], by simp [herr'], fun _ => rfl⟩
    · refine ⟨fun g => by simp [hne], by simp [hne], fun hmem => ?_⟩
      simp [hne, installCmd_ne_fileListCmd, installCmd_ne_checksumCmd] at hmem

/-- Witness for the amended C5: the artifact is already staged and its
digest matches, so no transfer happens and install is reached with a
verified checksum. -/
theorem stage_present_no_transfer_verifies_witness :
    (∀ g, StageEvent.transfer g ∉
      (stage_and_upgrade "img".toList (List.replicate 32 'a')
        { fileListOut := "/var/tmp/img   1234 bytes".toList, copyOk := true,
          checksumOut := List.replicate 32 'a', installErr := [] }).1) ∧
    StageEvent.exec (checksumCmd "img".toList) ∈
      (stage_and_upgrade "img".toList (List.replicate 32 'a')
        { fileListOut := "/var/tmp/img   1234 bytes".toList, copyOk := true,
          checksumOut := List.replicate 32 'a', installErr := [] }).1 ∧
    (StageEvent.exec (installCmd "img".toList) ∈
      (stage_and_upgrade "img".toList (List.replicate 32 'a')
        { fileListOut := "/var/tmp/img   1234 bytes".toList, copyOk := true,
          checksumOut := List.replicate 32 'a', installErr := [] }).1 →
      extract32hex
        ({ fileListOut := "/var/tmp/img   1234 bytes".toList, copyOk := true,
           checksumOut := List.replicate 32 'a',
           installErr := [] : DeviceResponses }).checksumOut =
        some (List.replicate 32 'a')) :=
  stage_present_no_transfer_verifies "img".toList (List.replicate 32 'a')
    { fileListOut := "/var/tmp/img   1234 bytes".toList, copyOk := true,
      checksumOut := List.replicate 32 'a', installErr := [] }
    (by decide)

/-- C5, counterexample: the claim's "checksum verification still runs"
is false for the `os_full.py` workflow. With the artifact already at the
destination, the event trace contains the install command but neither a
transfer nor any checksum command: verification is absent from that
variant. -/
theorem stage_full_no_verification_cex :
    StageEvent.exec (installCmd "img".toList) ∈
      (stage_and_upgrade_full "img".toList
        { fileListOut := "/var/tmp/img   1234 bytes".toList, copyOk := true,
          checksumOut := [], installErr := [] }).1 ∧
    StageEvent.exec (checksumCmd "img".toList) ∉
      (stage_and_upgrade_full "img".toList
        { fileListOut := "/var/tmp/img   1234 bytes".toList, copyOk := true,
          checksumOut := [], installErr := [] }).1 ∧
    StageEvent.transfer "img".toList ∉
      (stage_and_upgrade_full "img".toList
        { fileListOut := "/var/tmp/img   1234 bytes".toList, copyOk := true,
          checksumOut := [], installErr := [] }).1 := by
  decide

theorem waitGo_snd_iff (probe : Nat → Bool) (poll : Nat) (fuel i : Nat) :
    (waitGo probe poll i fuel).2 = true ↔
      ∃ k, k < fuel ∧ probe (i + k) = true := by
  induction fuel generalizing i with
  | zero => simp [waitGo]
  | succ fuel ih =>
    by_cases hp : probe i = true
    · rw [waitGo, if_pos hp]
      constructor
      · intro _
        exact ⟨0, by omega, by simpa using hp⟩
      · intro _
        rfl
    · rw [waitGo, if_neg hp]
      show (waitGo probe poll (i + 1) fuel).2 = true ↔
        ∃ k, k < fuel + 1 ∧ probe (i + k) = true
      rw [ih (i + 1)]
      constructor
      · rintro ⟨k, hk, hpk⟩
        refine ⟨k + 1, by omega, ?_⟩
        have e : i + (k + 1) = i + 1 + k := by omega
        rw [e]
        exact hpk
      · rintro ⟨k, hk, hpk⟩
        cases k with
        | zero =>
          rw [Nat.add_zero] at hpk
          exact absurd hpk hp
        | succ k' =>
          refine ⟨k', by omega, ?_⟩
          have e : i + 1 + k' = i + (k' + 1) := by omega
          rw [e]
          exact hpk

theorem waitGo_trace (probe : Nat → Bool) (poll : Nat) (n : Nat) :
    ∀ i fuel, n < fuel → probe (i + n) = true →
    (∀ k, k < n → probe (i + k) = false) →
    waitGo probe poll i fuel =
      (((List.range n).map
          (fun k => [WaitEvent.probe (i + k), WaitEvent.sleep poll])).flatten
        ++ [WaitEvent.probe (i + n)], true) := by
  induction n with
  | zero =>
    intro i fuel hfuel hp _
    cases fuel with
    | zero => omega
    | succ fuel =>
      rw [Nat.add_zero] at hp
      rw [waitGo, if_pos hp]
      simp
  | succ n ih =>
    intro i fuel hfuel hp hmin
    cases fuel with
    | zero => omega
    | succ fuel =>
      have hp0 : probe i = false := by
        have h0 := hmin 0 (by omega)
        simpa using h0
      rw [waitGo, if_neg (by simp [hp0])]
      have ihh := ih (i + 1) fuel (by omega)
        (by
          have e : i + 1 + n = i + (n + 1) := by omega
          rw [e]
          exact hp)
        (by
          intro k hk
          have e : i + 1 + k = i + (k + 1) := by omega
          rw [e]
          exact hmin (k + 1) (by omega))
      rw [ihh]
      refine Prod.ext ?_ rfl
      rw [List.range_succ_eq_map, List.map_cons, List.map_map]
      have efun : ((fun k => [WaitEvent.probe (i + k), WaitEvent.sleep poll])
          ∘ Nat.succ) =
          fun k => [WaitEvent.probe (i + 1 + k), WaitEvent.sleep poll] := by
        funext k
        have e : i + Nat.succ k = i + 1 + k := by omega
        simp only [Function.comp_apply]
        rw [e]
      rw [efun, List.flatten_cons]
      have e2 : i + (n + 1) = i + 1 + n := by omega
      rw [e2]
      rfl

/-- C9: the waiter sleeps the initial delay exactly once, then probes at
poll-interval spacing, performing the probes up to and including the
first successful one and completing with success; and for every
observation budget, a completed wait is exactly one in which some probe
succeeded — the loop has no failing exit (no internal timeout), so it
never terminates with a failure result. -/
theorem waitUntilReachable_spec (probe : Nat → Bool)
    (initialDelay poll n fuel : Nat) (hn : probe n = true)
    (hfirst : ∀ k, k < n → probe k = false) (hfuel : n < fuel) :
    waitUntilReachable probe initialDelay poll fuel =
      (WaitEvent.sleep initialDelay ::
        (((List.range n).map
            (fun k => [WaitEvent.probe k, WaitEvent.sleep poll])).flatten
          ++ [WaitEvent.probe n]), true) ∧
    ∀ m, (waitGo probe poll 0 m).2 = true ↔ ∃ k, k < m ∧ probe k = true := by
  constructor
  · unfold waitUntilReachable
    have h := waitGo_trace probe poll n 0 fuel hfuel (by simpa using hn)
      (fun k hk => by simpa using hfirst k hk)
    rw [h]
    simp
  · intro m
    have h := waitGo_snd_iff probe poll m 0
    simpa using h

/-- Witness for C9: probes 0 and 1 fail, probe 2 succeeds, budget 4. -/
theorem waitUntilReachable_spec_witness :
    waitUntilReachable (fun k => k == 2) 300 30 4 =
      (WaitEvent.sleep 300 ::
        (((List.range 2).map
            (fun k => [WaitEvent.probe k, WaitEvent.sleep 30])).flatten
          ++ [WaitEvent.probe 2]), true) ∧
    ∀ m, (waitGo (fun k => k == 2) 30 0 m).2 = true ↔
      ∃ k, k < m ∧ (k == 2) = true :=
  waitUntilReachable_spec (fun k => k == 2) 300 30 2 4 (by decide)
    (by decide) (by decide)
